import Mathlib

/-!
# Verification of the `chatty` incremental response filter

This file gives a shallow embedding, in Lean 4, of the streaming response
filter of the `chatty` terminal chat client, and proves (or refutes)
the specified properties of that filter.

Two pieces of the Go source are embedded:

* `decodeStream` — the SSE event decoder / delta extractor of
  `internal/client.go` (`Client.decodeStream`): a loop over input lines
  that skips non-`"data: "` lines, stops at a `"[DONE]"` sentinel,
  extracts the `choices[0].delta.content` increment from each JSON
  payload, accumulates the full content and invokes a caller-supplied
  callback on each non-empty increment.
* `feed` / `runFeeds` — the per-chunk streaming callback of
  `internal/chat.go` (`Session.streamResponse`): the thinking-tag
  state machine that routes chunks between the normal and
  "reasoning" presentation channels, and `finalRender`, the
  post-stream markdown re-render decision of the same function.

Text is modelled at the character level as `List Char`; Go strings
become character lists and Go string concatenation becomes list
append.  External library calls (`json.Unmarshal`, the glamour
markdown renderer) are modelled as parameters / result codes, never
re-implemented.
-/

namespace Chatty

/-- Convert a string literal to its character-list model. -/
def str (s : String) : List Char := s.data

/-! ## Event decoder / delta extractor (`Client.decodeStream`, internal/client.go)

The Go function reads lines with a `bufio.Scanner` whose default
maximum token size is `bufio.MaxScanTokenSize = 64 * 1024` bytes: a
line that reaches this bound without a newline makes `Scan` fail with
`bufio.ErrTooLong`, which `decodeStream` surfaces as a fatal
`"stream error"`.  We model the input as the list of its lines and
charge the length check to the line at which the scanner would fail.

`json.Unmarshal` into the anonymous chunk struct is modelled by a
`parse` parameter: `none` models an unmarshal error; `some cs` models
success, `cs` listing `choices[i].delta.content` for each choice (a
missing `content` field or missing `delta` yields the Go zero value,
i.e. the empty string, for that choice).

The caller-supplied callback may be stateful (in the Go source it is
a closure mutating captured variables), so it is modelled as a state
transformer `σ → List Char → σ × Option ε` returning `some e` when
the Go callback returns a non-nil error `e`.
-/

/-- `bufio.MaxScanTokenSize` (64 KiB), the default line-length bound of
`bufio.Scanner` as used by `Client.decodeStream`. -/
def maxScanTokenSize : Nat := 64 * 1024

/-- The SSE event marker `"data: "`. -/
def dataMarker : List Char := str "data: "

/-- The termination sentinel payload `"[DONE]"`. -/
def doneData : List Char := str "[DONE]"

/-- The line carrying exactly the termination sentinel. -/
def doneLine : List Char := str "data: [DONE]"

/-- Error component of a finished decode: `tooLong` models
`bufio.ErrTooLong` wrapped as a fatal `"stream error"`; `cb e` models a
non-nil error returned by the streaming callback and propagated. -/
inductive DecodeError (ε : Type) where
  | tooLong : DecodeError ε
  | cb (e : ε) : DecodeError ε
deriving DecidableEq

/-- Result of `Client.decodeStream`: the accumulated `fullContent`
builder, the ordered list of tokens the callback was invoked with, the
final callback state, and the error returned (if any). -/
structure DecodeResult (σ ε : Type) where
  full : List Char
  toks : List (List Char)
  state : σ
  error : Option (DecodeError ε)
deriving DecidableEq

/-- Shallow embedding of `Client.decodeStream` (internal/client.go,
lines 123–174).  `parse` models `json.Unmarshal` of the payload into
the chunk struct; `cb` models the streaming callback.  The arguments
`s`, `full`, `toks` carry the callback state, the `fullContent`
accumulator and the trace of callback invocations across the loop. -/
def decodeStream {σ ε : Type} (parse : List Char → Option (List (List Char)))
    (cb : σ → List Char → σ × Option ε) :
    σ → List Char → List (List Char) → List (List Char) → DecodeResult σ ε
  | s, full, toks, [] => ⟨full, toks, s, none⟩
  | s, full, toks, line :: rest =>
    -- a line reaching the scanner's bound fails with bufio.ErrTooLong
    if maxScanTokenSize ≤ line.length then ⟨full, toks, s, some .tooLong⟩
    -- `if !strings.HasPrefix(line, "data: ") { continue }`
    else if !(dataMarker.isPrefixOf line) then decodeStream parse cb s full toks rest
    -- `data := strings.TrimPrefix(line, "data: ")` is `line.drop dataMarker.length`
    else
      -- `if data == "[DONE]" { break }`
      if line.drop dataMarker.length = doneData then ⟨full, toks, s, none⟩
      else
        match parse (line.drop dataMarker.length) with
        -- `if err := json.Unmarshal(...); err != nil { continue }`
        | none => decodeStream parse cb s full toks rest
        | some choices =>
          match choices with
          -- `len(chunk.Choices) > 0` fails
          | [] => decodeStream parse cb s full toks rest
          | content :: _ =>
            -- `chunk.Choices[0].Delta.Content != ""` fails
            if content = [] then decodeStream parse cb s full toks rest
            else
              -- `fullContent.WriteString(token)` then `callback(token)`
              match cb s content with
              | (s', none) => decodeStream parse cb s' (full ++ content) (toks ++ [content]) rest
              | (s', some e) => ⟨full ++ content, toks ++ [content], s', some (.cb e)⟩

/-- Concatenation of a list of chunks, in order. -/
def concatAll : List (List Char) → List Char
  | [] => []
  | c :: r => c ++ concatAll r

/-! ## Thinking-tag state machine (`Session.streamResponse`, internal/chat.go)

`Session.streamResponse` installs a closure as the streaming callback.
The closure's captured variables become the fields of `ChatState`; one
invocation of the closure on a chunk becomes `feed`.

Output modelling: the closure writes three kinds of bytes to the
terminal — ANSI colour/style codes, the loading-animation / padding
chrome, and the actual content substrings (`beforeTag`, `afterTag`,
`upToAndIncludingTag`, `chunk`).  We record the content substrings, in
print order, as `Event.text` entries tagged with the presentation mode
they are printed in, and record the mode flips (`inThinking := true` /
`false`) as `Event.switch` entries.  Pure styling and chrome writes are
not part of the filtered content and are not recorded; the `useColors`
flag is still modelled because it changes the `thinkingStarted` state
variable (line 996 of chat.go runs only when colours are on). -/

/-- Presentation mode of a piece of output (`Visible` vs `Reasoning`). -/
inductive Mode where
  | normal : Mode
  | reasoning : Mode
deriving DecidableEq, Repr

/-- One output event of the streaming filter: a content span printed in
a given mode, or a mode transition. -/
inductive Event where
  | text (m : Mode) (t : List Char) : Event
  | switch (m : Mode) : Event
deriving DecidableEq, Repr

/-- The open-delimiter regex `(<thinking>)|(<think>)` as its list of
literal alternatives, in alternation order. -/
def openPatterns : List (List Char) := [str "<thinking>", str "<think>"]

/-- The close-delimiter regex `(</thinking>)|(</think>)` as its list of
literal alternatives, in alternation order. -/
def closePatterns : List (List Char) := [str "</thinking>", str "</think>"]

/-- Length of the first pattern of `pats` that is a prefix of `s`
(the alternation attempted at one position). -/
def firstPatAt (pats : List (List Char)) (s : List Char) : Option Nat :=
  pats.findSome? fun p => if p.isPrefixOf s then some p.length else none

/-- `regexp.FindStringIndex` for an alternation of literals: the
leftmost match, returned as `(loc0, loc1)` — start offset and
end offset of the matched literal.  (`MatchString` is `(findTag …).isSome`.) -/
def findTag (pats : List (List Char)) : List Char → Option (Nat × Nat)
  | [] => none
  | c :: rest =>
    match firstPatAt pats (c :: rest) with
    | some n => some (0, n)
    | none =>
      match findTag pats rest with
      | some (i, j) => some (i + 1, j + 1)
      | none => none

/-- The captured variables of the streaming closure in
`Session.streamResponse`, plus the recorded output trace `out`. -/
structure ChatState where
  /-- `fullResponse` builder: every chunk ever received. -/
  fullResponse : List Char
  /-- `buffer` builder: the window the tag regexes are matched against. -/
  buffer : List Char
  /-- `afterThinkingContent` builder: content collected after the close tag. -/
  afterThinking : List Char
  /-- `inThinking` flag. -/
  inThinking : Bool
  /-- `thinkingStarted` flag. -/
  thinkingStarted : Bool
  /-- `thinkingClosed` flag. -/
  thinkingClosed : Bool
  /-- `s.useColors`: constant per session, but it feeds `thinkingStarted`. -/
  useColors : Bool
  /-- Ordered trace of content prints and mode flips. -/
  out : List Event
deriving DecidableEq, Repr

/-- Initial closure state at the start of `streamResponse` (builders
empty, all flags false). -/
def initState (useColors : Bool) : ChatState :=
  ⟨[], [], [], false, false, false, useColors, []⟩

/-- One invocation of the streaming callback of `Session.streamResponse`
(internal/chat.go, lines 859–1008) on chunk `chunk`. -/
def feed (st : ChatState) (chunk : List Char) : ChatState :=
  -- `fullResponse.WriteString(chunk)` (line 860)
  let full' := st.fullResponse ++ chunk
  -- `if thinkingClosed { afterThinkingContent.WriteString(chunk); print chunk; return }`
  if st.thinkingClosed then
    { st with fullResponse := full',
              afterThinking := st.afterThinking ++ chunk,
              out := st.out ++ [Event.text Mode.normal chunk] }
  else
    -- `buffer.WriteString(chunk); bufferStr := buffer.String()` (lines 897–898)
    let bufferStr := st.buffer ++ chunk
    -- `if !inThinking && thinkTagPattern.MatchString(bufferStr)` (line 901)
    if !st.inThinking && (findTag openPatterns bufferStr).isSome then
      match findTag openPatterns bufferStr with
      | some (lo, _hi) =>
        let beforeTag := bufferStr.take lo
        let afterTag := bufferStr.drop lo
        -- `if beforeTag != "" && !thinkingStarted { print beforeTag }` (line 906)
        let beforeOut := if beforeTag ≠ [] ∧ st.thinkingStarted = false
          then [Event.text Mode.normal beforeTag] else []
        -- `inThinking = true; thinkingStarted = true; print afterTag; buffer.Reset()`
        { st with fullResponse := full',
                  inThinking := true,
                  thinkingStarted := true,
                  out := st.out ++ beforeOut ++
                    [Event.switch Mode.reasoning, Event.text Mode.reasoning afterTag],
                  buffer := [] }
      | none => { st with fullResponse := full' }  -- unreachable: isSome was checked
    -- `else if inThinking && thinkClosePattern.MatchString(bufferStr)` (line 944)
    else if st.inThinking && (findTag closePatterns bufferStr).isSome then
      match findTag closePatterns bufferStr with
      | some (_lo, hi) =>
        let upToTag := bufferStr.take hi
        let afterTag := bufferStr.drop hi
        -- `print upToAndIncludingTag; inThinking = false; thinkingClosed = true`
        -- `if afterTag != "" { afterThinkingContent.WriteString(afterTag); print afterTag }`
        -- (WriteString of the empty string is a no-op, so the accumulator
        -- update is written unconditionally; the print is kept conditional)
        let afterOut := if afterTag ≠ [] then [Event.text Mode.normal afterTag] else []
        { st with fullResponse := full',
                  inThinking := false,
                  thinkingClosed := true,
                  afterThinking := st.afterThinking ++ afterTag,
                  out := st.out ++ [Event.text Mode.reasoning upToTag, Event.switch Mode.normal]
                    ++ afterOut,
                  buffer := [] }
      | none => { st with fullResponse := full' }  -- unreachable: isSome was checked
    else
      -- normal streaming (lines 985–1004): print the chunk; with colours on,
      -- the very first such chunk also sets `thinkingStarted = true` (line 996);
      -- then `buffer.Reset(); buffer.WriteString(chunk)`
      let mode := if st.inThinking then Mode.reasoning else Mode.normal
      { st with fullResponse := full',
                out := st.out ++ [Event.text mode chunk],
                thinkingStarted := st.thinkingStarted || (!st.inThinking && st.useColors),
                buffer := chunk }

/-- Feed a list of chunks to the streaming callback, in order. -/
def runFeeds (st : ChatState) (chunks : List (List Char)) : ChatState :=
  chunks.foldl feed st

/-- The content bytes of an output trace, in emission order
(mode tags ignored). -/
def emittedText : List Event → List Char
  | [] => []
  | Event.text _ t :: rest => t ++ emittedText rest
  | Event.switch _ :: rest => emittedText rest

/-- The sequence of mode transitions of an output trace. -/
def switches : List Event → List Mode
  | [] => []
  | Event.switch m :: rest => m :: switches rest
  | Event.text _ _ :: rest => switches rest

/-- Whether the trace contains a transition back to `normal`
(i.e. a complete close delimiter has been matched). -/
def hasCloseSwitch : List Event → Bool
  | [] => false
  | Event.switch m :: rest => (m == Mode.normal) || hasCloseSwitch rest
  | Event.text _ _ :: rest => hasCloseSwitch rest

/-- The `Visible`-mode content emitted strictly after the first
transition back to `normal` mode; `seen` records whether that
transition has already occurred. -/
def visAfterClose (seen : Bool) : List Event → List Char
  | [] => []
  | Event.switch m :: rest => visAfterClose (seen || (m == Mode.normal)) rest
  | Event.text m t :: rest =>
    (if seen && (m == Mode.normal) then t else []) ++ visAfterClose seen rest

/-! ## Post-stream re-render decision (`streamResponse` lines 1014–1048,
`printAssistant` lines 1299–1368) -/

/-- `strings.TrimSpace`: strip leading and trailing whitespace. -/
def trimSpace (l : List Char) : List Char :=
  ((l.dropWhile Char.isWhitespace).reverse.dropWhile Char.isWhitespace).reverse

/-- What happens to the completed response after the stream ends:
`markdown c` — the glamour markdown renderer is invoked on `c` (on a
render error the caller keeps the already-printed plain text);
`plain c` — `c` is re-printed without invoking the renderer;
`skip` — no second-pass formatting happens at all. -/
inductive RenderChoice where
  | markdown (content : List Char) : RenderChoice
  | plain (content : List Char) : RenderChoice
  | skip : RenderChoice
deriving DecidableEq, Repr

/-- The re-render decision taken after streaming finishes
(chat.go lines 1023–1045): if a close tag was seen, the post-close
accumulator is non-empty and markdown is enabled, render its trimmed
text (nothing if the trim is empty); otherwise, if `thinkingStarted`
is still false, `printAssistant(fullResponse)` runs — markdown when
enabled, plain otherwise; in every other case nothing is re-rendered. -/
def finalRender (renderMarkdown : Bool) (st : ChatState) : RenderChoice :=
  if st.thinkingClosed && !st.afterThinking.isEmpty && renderMarkdown then
    if !(trimSpace st.afterThinking).isEmpty then
      RenderChoice.markdown (trimSpace st.afterThinking)
    else RenderChoice.skip
  else if !st.thinkingStarted then
    if renderMarkdown then RenderChoice.markdown st.fullResponse
    else RenderChoice.plain st.fullResponse
  else RenderChoice.skip

/-! ## Concrete data used by witnesses and counterexamples -/

/-- A concrete stand-in for `json.Unmarshal` used in witnesses: it
recognises two well-formed payloads and treats everything else as a
parse failure. -/
def parseExample (payload : List Char) : Option (List (List Char)) :=
  if payload = str "\x7b\"choices\":[\x7b\"delta\":\x7b\"content\":\"Hi\"\x7d\x7d]\x7d" then some [str "Hi"]
  else if payload = str "\x7b\"choices\":[\x7b\"delta\":\x7b\"content\":\"Bye\"\x7d\x7d]\x7d" then some [str "Bye"]
  else none

/-- A callback that never fails (models a nil / always-successful callback). -/
def cbOk : Unit → List Char → Unit × Option Unit := fun _ _ => ((), none)

/-- A callback that fails with error code `7` on the token `"Hi"`. -/
def cbFail : Unit → List Char → Unit × Option Nat :=
  fun _ t => ((), if t = str "Hi" then some 7 else none)

/-- First example data line, carrying content `"Hi"`. -/
def hiLine : List Char := str "data: \x7b\"choices\":[\x7b\"delta\":\x7b\"content\":\"Hi\"\x7d\x7d]\x7d"

/-- Second example data line, carrying content `"Bye"`. -/
def byeLine : List Char := str "data: \x7b\"choices\":[\x7b\"delta\":\x7b\"content\":\"Bye\"\x7d\x7d]\x7d"

/-- A data line whose payload is not valid JSON. -/
def badLine : List Char := str "data: not json"

/-- A line at the scanner's length bound (64 KiB of `'a'`). -/
def longLine : List Char := List.replicate maxScanTokenSize 'a'

/-- The single chunk of the spec's multiple-delimiters-per-chunk test. -/
def multiChunk : List Char := str "<think>a</think>b<think>c</think>d"

end Chatty

namespace Chatty

-- Sanity checks of the tag state machine on concrete inputs.

example :
    emittedText (runFeeds (initState false) [str "hello ", str "world"]).out =
      str "hello world" := by decide

-- The close tag in the same chunk as the open tag is swallowed by
-- `buffer.Reset()` in the open branch, so the region is never closed.
example :
    (runFeeds (initState false) [str "<think>a</think>", str "b"]).afterThinking =
      [] := by decide

example :
    switches (runFeeds (initState false) [str "<think>a", str "</think>b"]).out =
      [Mode.reasoning, Mode.normal] := by decide

-- A delimiter straddling a chunk boundary: "<thi" is printed by the
-- normal branch and then re-printed as part of "<think>".
example :
    emittedText (runFeeds (initState false) [str "<thi", str "nk>"]).out =
      str "<thi<think>" := by decide

/-! ### Branch lemmas: one callback invocation, by branch of the Go code -/

section FeedLemmas

variable {st : ChatState} {c : List Char} {lo hi : Nat}

/-- Chunk arriving after the close tag (chat.go lines 882–895). -/
theorem feed_closed (h : st.thinkingClosed = true) :
    feed st c =
      { st with fullResponse := st.fullResponse ++ c,
                afterThinking := st.afterThinking ++ c,
                out := st.out ++ [Event.text Mode.normal c] } := by
  simp [feed, h]

/-- Open tag found in the buffer (chat.go lines 901–943). -/
theorem feed_open (hcl : st.thinkingClosed = false) (hin : st.inThinking = false)
    (hm : findTag openPatterns (st.buffer ++ c) = some (lo, hi)) :
    feed st c =
      { st with fullResponse := st.fullResponse ++ c,
                inThinking := true,
                thinkingStarted := true,
                out := st.out ++
                  (if (st.buffer ++ c).take lo ≠ [] ∧ st.thinkingStarted = false
                    then [Event.text Mode.normal ((st.buffer ++ c).take lo)] else []) ++
                  [Event.switch Mode.reasoning,
                   Event.text Mode.reasoning ((st.buffer ++ c).drop lo)],
                buffer := [] } := by
  simp [feed, hcl, hin, hm]

/-- Close tag found in the buffer while inside a thinking region
(chat.go lines 944–984). -/
theorem feed_close (hcl : st.thinkingClosed = false) (hin : st.inThinking = true)
    (hm : findTag closePatterns (st.buffer ++ c) = some (lo, hi)) :
    feed st c =
      { st with fullResponse := st.fullResponse ++ c,
                inThinking := false,
                thinkingClosed := true,
                afterThinking := st.afterThinking ++ (st.buffer ++ c).drop hi,
                out := st.out ++
                  [Event.text Mode.reasoning ((st.buffer ++ c).take hi),
                   Event.switch Mode.normal] ++
                  (if (st.buffer ++ c).drop hi ≠ []
                    then [Event.text Mode.normal ((st.buffer ++ c).drop hi)] else []),
                buffer := [] } := by
  simp [feed, hcl, hin, hm]

/-- Normal streaming outside a thinking region, no open tag in the
buffer (chat.go lines 985–1004). -/
theorem feed_plain_normal (hcl : st.thinkingClosed = false) (hin : st.inThinking = false)
    (hm : findTag openPatterns (st.buffer ++ c) = none) :
    feed st c =
      { st with fullResponse := st.fullResponse ++ c,
                out := st.out ++ [Event.text Mode.normal c],
                thinkingStarted := st.thinkingStarted || st.useColors,
                buffer := c } := by
  simp [feed, hcl, hin, hm]

/-- Normal streaming inside a thinking region, no close tag in the
buffer (chat.go lines 985–1004). -/
theorem feed_plain_reasoning (hcl : st.thinkingClosed = false) (hin : st.inThinking = true)
    (hm : findTag closePatterns (st.buffer ++ c) = none) :
    feed st c =
      { st with fullResponse := st.fullResponse ++ c,
                out := st.out ++ [Event.text Mode.reasoning c],
                buffer := c } := by
  simp [feed, hcl, hin, hm]

/-- `fullResponse` grows by exactly the chunk on every invocation
(`fullResponse.WriteString(chunk)` on line 860 is unconditional). -/
theorem feed_fullResponse (st : ChatState) (c : List Char) :
    (feed st c).fullResponse = st.fullResponse ++ c := by
  by_cases hcl : st.thinkingClosed
  · rw [feed_closed hcl]
  · rcases hin : st.inThinking with _ | _
    · rcases hm : findTag openPatterns (st.buffer ++ c) with _ | ⟨lo, hi⟩
      · rw [feed_plain_normal (by simpa using hcl) hin hm]
      · rw [feed_open (by simpa using hcl) hin hm]
    · rcases hm : findTag closePatterns (st.buffer ++ c) with _ | ⟨lo, hi⟩
      · rw [feed_plain_reasoning (by simpa using hcl) hin hm]
      · rw [feed_close (by simpa using hcl) hin hm]

/-- `fullResponse` after a whole stream is the concatenation of all
chunks fed in. -/
theorem runFeeds_fullResponse :
    ∀ (chunks : List (List Char)) (st : ChatState),
      (runFeeds st chunks).fullResponse = st.fullResponse ++ concatAll chunks := by
  intro chunks
  induction chunks with
  | nil => intro st; simp [runFeeds, concatAll]
  | cons c rest ih =>
    intro st
    show (runFeeds (feed st c) rest).fullResponse = _
    rw [ih (feed st c), feed_fullResponse, concatAll, List.append_assoc]

end FeedLemmas

/-! ### Trace lemmas -/

theorem emittedText_append (a b : List Event) :
    emittedText (a ++ b) = emittedText a ++ emittedText b := by
  induction a with
  | nil => simp [emittedText]
  | cons e rest ih => cases e <;> simp [emittedText, ih]

theorem hasCloseSwitch_append (a b : List Event) :
    hasCloseSwitch (a ++ b) = (hasCloseSwitch a || hasCloseSwitch b) := by
  induction a with
  | nil => simp [hasCloseSwitch]
  | cons e rest ih => cases e <;> simp [hasCloseSwitch, ih, Bool.or_assoc]

theorem visAfterClose_append (seen : Bool) (a b : List Event) :
    visAfterClose seen (a ++ b) =
      visAfterClose seen a ++ visAfterClose (seen || hasCloseSwitch a) b := by
  induction a generalizing seen with
  | nil => simp [visAfterClose, hasCloseSwitch]
  | cons e rest ih =>
    cases e with
    | text m t =>
      simp [visAfterClose, hasCloseSwitch, ih, List.append_assoc]
    | switch m =>
      simp [visAfterClose, hasCloseSwitch, ih, Bool.or_assoc]

/-- Appending the same list on the right preserves the suffix relation. -/
theorem isSuffix_append_right {a b : List Char} (c : List Char) (h : a <:+ b) :
    a ++ c <:+ b ++ c := by
  obtain ⟨t, ht⟩ := h
  exact ⟨t, by rw [← List.append_assoc, ht]⟩

/-! ### The state invariant of the streaming closure -/

/-- Invariant of the streaming-closure state, preserved by every chunk:
the post-close accumulator is a suffix of the full response and equals
the `Visible`-mode content emitted after the first close transition;
before any close, the accumulator is empty and the regex window
`buffer` is a suffix of the full response; and the `thinkingClosed`
flag mirrors the presence of a close transition in the trace. -/
def Inv (st : ChatState) : Prop :=
  st.afterThinking <:+ st.fullResponse ∧
  (st.thinkingClosed = false → st.buffer <:+ st.fullResponse) ∧
  (st.thinkingClosed = false → st.afterThinking = []) ∧
  st.afterThinking = visAfterClose false st.out ∧
  hasCloseSwitch st.out = st.thinkingClosed

theorem inv_initState (u : Bool) : Inv (initState u) := by
  refine ⟨⟨[], rfl⟩, fun _ => ⟨[], rfl⟩, fun _ => rfl, rfl, rfl⟩

theorem inv_feed {st : ChatState} (h : Inv st) (c : List Char) : Inv (feed st c) := by
  obtain ⟨h1, h2, h3, h4, h5⟩ := h
  rcases hcl : st.thinkingClosed with _ | _
  case true =>
    rw [feed_closed hcl]
    have hhc : hasCloseSwitch st.out = true := by rw [h5, hcl]
    refine ⟨isSuffix_append_right c h1, ?_, ?_, ?_, ?_⟩
    · intro hq; simp [hcl] at hq
    · intro hq; simp [hcl] at hq
    · dsimp only
      rw [visAfterClose_append, ← h4, hhc]
      simp [visAfterClose]
    · dsimp only
      rw [hasCloseSwitch_append, hhc, hcl]
      simp
  case false =>
    have hafter : st.afterThinking = [] := h3 hcl
    have hbuf : st.buffer <:+ st.fullResponse := h2 hcl
    have hvis : visAfterClose false st.out = [] := by rw [← h4, hafter]
    have hhc : hasCloseSwitch st.out = false := by rw [h5, hcl]
    rcases hin : st.inThinking with _ | _
    case false =>
      rcases hm : findTag openPatterns (st.buffer ++ c) with _ | ⟨lo, hi⟩
      · -- normal streaming, no open tag
        rw [feed_plain_normal hcl hin hm]
        refine ⟨by simp [hafter], fun _ => List.suffix_append _ _,
          fun _ => hafter, ?_, ?_⟩
        · dsimp only
          rw [visAfterClose_append, hvis, hhc, hafter]
          simp [visAfterClose]
        · dsimp only
          rw [hasCloseSwitch_append, hhc, hcl]
          simp [hasCloseSwitch]
      · -- open tag matched
        rw [feed_open hcl hin hm]
        have hvb : ∀ (P : Prop) (_ : Decidable P) (x : List Char),
            visAfterClose false (if P then [Event.text Mode.normal x] else []) = [] := by
          intro P inst x
          split <;> simp [visAfterClose]
        have hcb : ∀ (P : Prop) (_ : Decidable P) (x : List Char),
            hasCloseSwitch (if P then [Event.text Mode.normal x] else []) = false := by
          intro P inst x
          split <;> simp [hasCloseSwitch]
        refine ⟨by simp [hafter], fun _ => List.nil_suffix, fun _ => hafter, ?_, ?_⟩
        · dsimp only
          simp [visAfterClose_append, hasCloseSwitch_append, hvis, hhc, hafter, hvb, hcb,
            visAfterClose]
        · dsimp only
          simp [hasCloseSwitch_append, hhc, hcb, hcl, hasCloseSwitch]
    case true =>
      rcases hm : findTag closePatterns (st.buffer ++ c) with _ | ⟨lo, hi⟩
      · -- reasoning streaming, no close tag
        rw [feed_plain_reasoning hcl hin hm]
        refine ⟨by simp [hafter], fun _ => List.suffix_append _ _,
          fun _ => hafter, ?_, ?_⟩
        · dsimp only
          rw [visAfterClose_append, hvis, hhc, hafter]
          simp [visAfterClose]
        · dsimp only
          rw [hasCloseSwitch_append, hhc, hcl]
          simp [hasCloseSwitch]
      · -- close tag matched
        rw [feed_close hcl hin hm]
        have hdropSuffix : (st.buffer ++ c).drop hi <:+ st.fullResponse ++ c :=
          (List.drop_suffix hi (st.buffer ++ c)).trans (isSuffix_append_right c hbuf)
        refine ⟨by simpa [hafter] using hdropSuffix, ?_, ?_, ?_, ?_⟩
        · intro hq; simp at hq
        · intro hq; simp at hq
        · dsimp only
          by_cases hd : (st.buffer ++ c).drop hi = []
          · simp [hd, hafter, visAfterClose_append, hasCloseSwitch_append, hvis, hhc,
              visAfterClose, hasCloseSwitch]
          · simp [hd, hafter, visAfterClose_append, hasCloseSwitch_append, hvis, hhc,
              visAfterClose, hasCloseSwitch]
        · dsimp only
          by_cases hd : (st.buffer ++ c).drop hi = []
          · simp [hd, hasCloseSwitch_append, hhc, hasCloseSwitch]
          · simp [hd, hasCloseSwitch_append, hhc, hasCloseSwitch]

theorem inv_runFeeds {st : ChatState} (h : Inv st) (chunks : List (List Char)) :
    Inv (runFeeds st chunks) := by
  induction chunks generalizing st with
  | nil => exact h
  | cons c rest ih => exact ih (inv_feed h c)

end Chatty

namespace Chatty

-- Sanity examples for the decoder model (concrete oracle for `parse`).

example :
    decodeStream parseExample cbOk () [] [] [hiLine] =
      ⟨str "Hi", [str "Hi"], (), none⟩ := by decide

example :
    decodeStream parseExample cbOk () [] [] [hiLine, doneLine, byeLine] =
      ⟨str "Hi", [str "Hi"], (), none⟩ := by decide

/-! ### Step lemmas: one decoder-loop iteration, by case -/

section DecodeLemmas

variable {σ ε : Type} {parse : List Char → Option (List (List Char))}
variable {cb : σ → List Char → σ × Option ε}
variable {s s' : σ} {full : List Char} {toks : List (List Char)}
variable {line : List Char} {rest : List (List Char)}

/-- An over-bound line makes the scanner fail at once with
`bufio.ErrTooLong`; nothing after it is read. -/
theorem decodeStep_tooLong (hlen : maxScanTokenSize ≤ line.length) :
    decodeStream parse cb s full toks (line :: rest) =
      ⟨full, toks, s, some DecodeError.tooLong⟩ := by
  simp [decodeStream, hlen]

/-- A line without the `"data: "` marker is skipped. -/
theorem decodeStep_noMarker (hlen : ¬ maxScanTokenSize ≤ line.length)
    (hpre : dataMarker.isPrefixOf line = false) :
    decodeStream parse cb s full toks (line :: rest) =
      decodeStream parse cb s full toks rest := by
  simp [decodeStream, hlen, hpre]

/-- The `"[DONE]"` sentinel stops decoding at once, without error and
without reading the remaining lines. -/
theorem decodeStep_done (hlen : ¬ maxScanTokenSize ≤ line.length)
    (hpre : dataMarker.isPrefixOf line = true)
    (hdone : line.drop dataMarker.length = doneData) :
    decodeStream parse cb s full toks (line :: rest) = ⟨full, toks, s, none⟩ := by
  simp [decodeStream, hlen, hpre, hdone]

/-- A payload that fails to parse is skipped. -/
theorem decodeStep_badParse (hlen : ¬ maxScanTokenSize ≤ line.length)
    (hpre : dataMarker.isPrefixOf line = true)
    (hdone : line.drop dataMarker.length ≠ doneData)
    (hp : parse (line.drop dataMarker.length) = none) :
    decodeStream parse cb s full toks (line :: rest) =
      decodeStream parse cb s full toks rest := by
  simp [decodeStream, hlen, hpre, hdone, hp]

/-- A payload with no choices is skipped. -/
theorem decodeStep_noChoices (hlen : ¬ maxScanTokenSize ≤ line.length)
    (hpre : dataMarker.isPrefixOf line = true)
    (hdone : line.drop dataMarker.length ≠ doneData)
    (hp : parse (line.drop dataMarker.length) = some []) :
    decodeStream parse cb s full toks (line :: rest) =
      decodeStream parse cb s full toks rest := by
  simp [decodeStream, hlen, hpre, hdone, hp]

/-- A payload whose first choice has empty content is skipped. -/
theorem decodeStep_emptyContent (hlen : ¬ maxScanTokenSize ≤ line.length)
    (hpre : dataMarker.isPrefixOf line = true)
    (hdone : line.drop dataMarker.length ≠ doneData) {cs : List (List Char)}
    (hp : parse (line.drop dataMarker.length) = some ([] :: cs)) :
    decodeStream parse cb s full toks (line :: rest) =
      decodeStream parse cb s full toks rest := by
  simp [decodeStream, hlen, hpre, hdone, hp]

/-- A non-empty token with a successful callback: the token is appended
to `fullContent` and the trace, and the loop continues in the new
callback state. -/
theorem decodeStep_token (hlen : ¬ maxScanTokenSize ≤ line.length)
    (hpre : dataMarker.isPrefixOf line = true)
    (hdone : line.drop dataMarker.length ≠ doneData)
    {tk : List Char} {cs : List (List Char)}
    (hp : parse (line.drop dataMarker.length) = some (tk :: cs)) (htk : tk ≠ [])
    (hcb : cb s tk = (s', none)) :
    decodeStream parse cb s full toks (line :: rest) =
      decodeStream parse cb s' (full ++ tk) (toks ++ [tk]) rest := by
  simp [decodeStream, hlen, hpre, hdone, hp, htk, hcb]

/-- A non-empty token on which the callback errors: the token is still
appended to `fullContent` and the trace, and the loop stops at once
with the callback's error, reading nothing further. -/
theorem decodeStep_cbError (hlen : ¬ maxScanTokenSize ≤ line.length)
    (hpre : dataMarker.isPrefixOf line = true)
    (hdone : line.drop dataMarker.length ≠ doneData)
    {tk : List Char} {cs : List (List Char)} {e : ε}
    (hp : parse (line.drop dataMarker.length) = some (tk :: cs)) (htk : tk ≠ [])
    (hcb : cb s tk = (s', some e)) :
    decodeStream parse cb s full toks (line :: rest) =
      ⟨full ++ tk, toks ++ [tk], s', some (DecodeError.cb e)⟩ := by
  simp [decodeStream, hlen, hpre, hdone, hp, htk, hcb]

end DecodeLemmas

/-- Exhaustive case analysis of one decoder-loop iteration: either the
result is final (over-bound line, sentinel, callback error), or the
iteration reduces to the rest of the lines, with at most one non-empty
token appended to the accumulators. -/
theorem decodeStep_cases {σ ε : Type}
    (parse : List Char → Option (List (List Char))) (cb : σ → List Char → σ × Option ε)
    (s : σ) (full : List Char) (toks : List (List Char))
    (line : List Char) (rest : List (List Char)) :
    decodeStream parse cb s full toks (line :: rest) =
        ⟨full, toks, s, some DecodeError.tooLong⟩ ∨
      decodeStream parse cb s full toks (line :: rest) = ⟨full, toks, s, none⟩ ∨
      decodeStream parse cb s full toks (line :: rest) =
        decodeStream parse cb s full toks rest ∨
      (∃ tk s' e, tk ≠ [] ∧
        decodeStream parse cb s full toks (line :: rest) =
          ⟨full ++ tk, toks ++ [tk], s', some (DecodeError.cb e)⟩) ∨
      (∃ tk s', tk ≠ [] ∧
        decodeStream parse cb s full toks (line :: rest) =
          decodeStream parse cb s' (full ++ tk) (toks ++ [tk]) rest) := by
  by_cases hlen : maxScanTokenSize ≤ line.length
  · exact Or.inl (decodeStep_tooLong hlen)
  rcases hpre : dataMarker.isPrefixOf line with _ | _
  · exact Or.inr (Or.inr (Or.inl (decodeStep_noMarker hlen hpre)))
  by_cases hdone : line.drop dataMarker.length = doneData
  · exact Or.inr (Or.inl (decodeStep_done hlen hpre hdone))
  rcases hp : parse (line.drop dataMarker.length) with _ | choices
  · exact Or.inr (Or.inr (Or.inl (decodeStep_badParse hlen hpre hdone hp)))
  rcases choices with _ | ⟨tk, cs⟩
  · exact Or.inr (Or.inr (Or.inl (decodeStep_noChoices hlen hpre hdone hp)))
  by_cases htk : tk = []
  · subst htk
    exact Or.inr (Or.inr (Or.inl (decodeStep_emptyContent hlen hpre hdone hp)))
  rcases hcb : cb s tk with ⟨s', err⟩
  rcases err with _ | e
  · exact Or.inr (Or.inr (Or.inr (Or.inr
      ⟨tk, s', htk, decodeStep_token hlen hpre hdone hp htk hcb⟩)))
  · exact Or.inr (Or.inr (Or.inr (Or.inl
      ⟨tk, s', e, htk, decodeStep_cbError hlen hpre hdone hp htk hcb⟩)))

/-- The `fullContent` builder always equals its starting value followed
by the concatenation of the tokens appended during the loop, and the
token trace only ever grows. -/
theorem decodeStream_toks_full {σ ε : Type}
    (parse : List Char → Option (List (List Char))) (cb : σ → List Char → σ × Option ε) :
    ∀ (lines : List (List Char)) (s : σ) (full : List Char) (toks : List (List Char)),
      ∃ new, (decodeStream parse cb s full toks lines).toks = toks ++ new ∧
        (decodeStream parse cb s full toks lines).full = full ++ concatAll new := by
  intro lines
  induction lines with
  | nil =>
    intro s full toks
    exact ⟨[], by simp [decodeStream, concatAll]⟩
  | cons line rest ih =>
    intro s full toks
    rcases decodeStep_cases parse cb s full toks line rest with h | h | h | h | h
    · exact ⟨[], by simp [h, concatAll]⟩
    · exact ⟨[], by simp [h, concatAll]⟩
    · rw [h]; exact ih s full toks
    · obtain ⟨tk, s', e, -, h⟩ := h
      exact ⟨[tk], by simp [h, concatAll]⟩
    · obtain ⟨tk, s', -, h⟩ := h
      rw [h]
      obtain ⟨new, h1, h2⟩ := ih s' (full ++ tk) (toks ++ [tk])
      exact ⟨tk :: new, by simp [h1, h2, concatAll]⟩

/-- Every token in the trace beyond the starting trace is non-empty. -/
theorem decodeStream_mem_toks {σ ε : Type}
    (parse : List Char → Option (List (List Char))) (cb : σ → List Char → σ × Option ε) :
    ∀ (lines : List (List Char)) (s : σ) (full : List Char) (toks : List (List Char))
      (tk : List Char), tk ∈ (decodeStream parse cb s full toks lines).toks →
      tk ∈ toks ∨ tk ≠ [] := by
  intro lines
  induction lines with
  | nil =>
    intro s full toks tk h
    simp [decodeStream] at h
    exact Or.inl h
  | cons line rest ih =>
    intro s full toks tk h
    rcases decodeStep_cases parse cb s full toks line rest with hs | hs | hs | hs | hs
    · rw [hs] at h; exact Or.inl h
    · rw [hs] at h; exact Or.inl h
    · rw [hs] at h; exact ih s full toks tk h
    · obtain ⟨tk', s', e, htk', hs⟩ := hs
      rw [hs] at h
      rcases List.mem_append.1 h with h' | h'
      · exact Or.inl h'
      · simp at h'
        subst h'
        exact Or.inr htk'
    · obtain ⟨tk', s', htk', hs⟩ := hs
      rw [hs] at h
      rcases ih s' (full ++ tk') (toks ++ [tk']) tk h with h' | h'
      · rcases List.mem_append.1 h' with h'' | h''
        · exact Or.inl h''
        · simp at h''
          subst h''
          exact Or.inr htk'
      · exact Or.inr h'

/-- Processing the sentinel line returns the accumulators unchanged and
no error, whatever follows it. -/
theorem decodeStream_doneLine {σ ε : Type}
    (parse : List Char → Option (List (List Char))) (cb : σ → List Char → σ × Option ε)
    (s : σ) (full : List Char) (toks : List (List Char)) (rest : List (List Char)) :
    decodeStream parse cb s full toks (doneLine :: rest) = ⟨full, toks, s, none⟩ := by
  rfl

/-! ## The claims -/

/-- C1 (counterexample).  The round-trip invariant fails on the code:
splitting the text `"<think>"` into the chunks `"<thi"` and `"nk>"`
makes the filter emit `"<thi<think>"` — the partial delimiter `"<thi"`
is printed by the normal-streaming branch and then re-printed as part
of the matched tag, duplicating four bytes.  The emitted text is not
byte-identical to the input and depends on the chunk boundary. -/
theorem c1_roundtrip_counterexample :
    emittedText (runFeeds (initState false) [str "<thi", str "nk>"]).out =
        str "<thi<think>" ∧
    emittedText (runFeeds (initState false) [str "<thi", str "nk>"]).out ≠
        concatAll [str "<thi", str "nk>"] := by
  constructor
  · decide
  · decide

/-- C1 (amended).  The round-trip invariant holds for the trivial
partition only: feeding the whole text as a single chunk emits exactly
the text, whatever the colour setting.  For multi-chunk partitions a
delimiter match that spans the retained previous chunk re-emits
already-printed bytes (see the counterexample). -/
theorem c1_roundtrip_single_chunk (u : Bool) (T : List Char) :
    emittedText (runFeeds (initState u) [T]).out = T := by
  show emittedText (feed (initState u) T).out = T
  rcases hm : findTag openPatterns ((initState u).buffer ++ T) with _ | ⟨lo, hi⟩
  · rw [feed_plain_normal rfl rfl hm]
    simp [initState, emittedText]
  · rw [feed_open rfl rfl hm]
    by_cases ht : ((initState u).buffer ++ T).take lo = []
    · -- the beforeTag print is empty, and drop lo T is all of T
      have ht' : List.take lo T = [] := by simpa [initState] using ht
      by_cases hT0 : T = []
      · subst hT0
        simp [initState, emittedText_append, emittedText, ht']
      · have h0 : lo = 0 := by
          cases T with
          | nil => exact absurd rfl hT0
          | cons a as =>
            cases lo with
            | zero => rfl
            | succ n => simp at ht'
        subst h0
        simp [initState, emittedText_append, emittedText]
    · simp only [initState, List.nil_append] at ht ⊢
      simp [emittedText_append, emittedText, ht, List.take_append_drop]

/-- C2 (counterexample).  Feeding the whole string
`"<think>a</think>b<think>c</think>d"` as one chunk does **not**
produce the transitions Normal→Reasoning→Normal→Reasoning→Normal with
`postReasoningText = "bd"`: the open branch matches `<think>` at
offset 0, prints the entire chunk in reasoning style, and resets the
match buffer, so the close tags in the same chunk are never seen. -/
theorem c2_multiple_delimiters_counterexample :
    ¬ (switches (runFeeds (initState false) [multiChunk]).out =
        [Mode.reasoning, Mode.normal, Mode.reasoning, Mode.normal] ∧
      (runFeeds (initState false) [multiChunk]).afterThinking = str "bd") := by
  decide

/-- C2 (amended).  Feeding `"<think>a</think>b<think>c</think>d"` as a
single chunk yields exactly one mode transition (Normal→Reasoning) and
leaves `postReasoningText` empty, with the reasoning region still
open: the code handles at most one delimiter per chunk and discards
the rest of the chunk from its match buffer after an open match. -/
theorem c2_single_transition_per_chunk (u : Bool) :
    switches (runFeeds (initState u) [multiChunk]).out = [Mode.reasoning] ∧
    (runFeeds (initState u) [multiChunk]).afterThinking = [] ∧
    (runFeeds (initState u) [multiChunk]).thinkingClosed = false := by
  cases u <;> decide

/-- C3.  When the decoder has reached any state without error, a
`"data: [DONE]"` line stops it immediately: the result over
`l1 ++ doneLine :: l2` is the result over `l1` alone — no error, no
further token, and the lines after the sentinel are never decoded. -/
theorem c3_done_sentinel_stops {σ ε : Type}
    (parse : List Char → Option (List (List Char))) (cb : σ → List Char → σ × Option ε) :
    ∀ (l1 l2 : List (List Char)) (s : σ) (full F : List Char)
      (toks T : List (List Char)) (s' : σ),
      decodeStream parse cb s full toks l1 = ⟨F, T, s', none⟩ →
      decodeStream parse cb s full toks (l1 ++ doneLine :: l2) = ⟨F, T, s', none⟩ := by
  intro l1
  induction l1 with
  | nil =>
    intro l2 s full F toks T s' h
    simp only [decodeStream, DecodeResult.mk.injEq] at h
    obtain ⟨hF, hT, hs, -⟩ := h
    subst hF; subst hT; subst hs
    exact decodeStream_doneLine parse cb s full toks l2
  | cons line l1' ih =>
    intro l2 s full F toks T s' h
    by_cases hlen : maxScanTokenSize ≤ line.length
    · rw [decodeStep_tooLong hlen] at h
      simp at h
    rcases hpre : dataMarker.isPrefixOf line with _ | _
    · rw [decodeStep_noMarker hlen hpre] at h
      rw [List.cons_append, decodeStep_noMarker hlen hpre]
      exact ih l2 s full F toks T s' h
    by_cases hdone : line.drop dataMarker.length = doneData
    · rw [decodeStep_done hlen hpre hdone] at h
      rw [List.cons_append, decodeStep_done hlen hpre hdone]
      exact h
    rcases hp : parse (line.drop dataMarker.length) with _ | choices
    · rw [decodeStep_badParse hlen hpre hdone hp] at h
      rw [List.cons_append, decodeStep_badParse hlen hpre hdone hp]
      exact ih l2 s full F toks T s' h
    rcases choices with _ | ⟨tk, cs⟩
    · rw [decodeStep_noChoices hlen hpre hdone hp] at h
      rw [List.cons_append, decodeStep_noChoices hlen hpre hdone hp]
      exact ih l2 s full F toks T s' h
    by_cases htk : tk = []
    · subst htk
      rw [decodeStep_emptyContent hlen hpre hdone hp] at h
      rw [List.cons_append, decodeStep_emptyContent hlen hpre hdone hp]
      exact ih l2 s full F toks T s' h
    rcases hcb : cb s tk with ⟨s2, err⟩
    rcases err with _ | e
    · rw [decodeStep_token hlen hpre hdone hp htk hcb] at h
      rw [List.cons_append, decodeStep_token hlen hpre hdone hp htk hcb]
      exact ih l2 s2 (full ++ tk) F (toks ++ [tk]) T s' h
    · rw [decodeStep_cbError hlen hpre hdone hp htk hcb] at h
      simp at h

/-- C3 (witness).  A valid data line, the sentinel, then another valid
data line yield exactly one token; the third line is never decoded. -/
theorem c3_done_sentinel_stops_witness :
    decodeStream parseExample cbOk () [] [] [hiLine] =
      ⟨str "Hi", [str "Hi"], (), none⟩ ∧
    decodeStream parseExample cbOk () [] [] [hiLine, doneLine, byeLine] =
      ⟨str "Hi", [str "Hi"], (), none⟩ :=
  ⟨by decide,
    c3_done_sentinel_stops parseExample cbOk [hiLine] [byeLine] () [] (str "Hi")
      [] [str "Hi"] () (by decide)⟩

/-- C4.  A data line (within the scanner bound) whose payload fails to
parse, parses with no choices, or has empty content in its first
choice, is skipped: decoding the stream with that line is identical to
decoding without it — no token, no abort, no error. -/
theorem c4_malformed_chunk_skipped {σ ε : Type}
    (parse : List Char → Option (List (List Char))) (cb : σ → List Char → σ × Option ε)
    (s : σ) (full : List Char) (toks : List (List Char))
    (line : List Char) (rest : List (List Char))
    (hlen : line.length < maxScanTokenSize)
    (hpre : dataMarker.isPrefixOf line = true)
    (hdone : line.drop dataMarker.length ≠ doneData)
    (hbad : parse (line.drop dataMarker.length) = none ∨
            parse (line.drop dataMarker.length) = some [] ∨
            ∃ cs, parse (line.drop dataMarker.length) = some ([] :: cs)) :
    decodeStream parse cb s full toks (line :: rest) =
      decodeStream parse cb s full toks rest := by
  have hlen' : ¬ maxScanTokenSize ≤ line.length := not_le.mpr hlen
  rcases hbad with hp | hp | ⟨cs, hp⟩
  · exact decodeStep_badParse hlen' hpre hdone hp
  · exact decodeStep_noChoices hlen' hpre hdone hp
  · exact decodeStep_emptyContent hlen' hpre hdone hp

/-- C4 (witness).  A `"data: not json"` line is skipped and the stream
continues to the next line. -/
theorem c4_malformed_chunk_skipped_witness :
    badLine.length < maxScanTokenSize ∧
    parseExample (badLine.drop dataMarker.length) = none ∧
    decodeStream parseExample cbOk () [] [] [badLine, hiLine] =
      decodeStream parseExample cbOk () [] [] [hiLine] :=
  ⟨by decide, by decide,
    c4_malformed_chunk_skipped parseExample cbOk () [] [] badLine [hiLine]
      (by decide) (by decide) (by decide) (Or.inl (by decide))⟩

/-- C5.  `fullResponse` in `streamResponse` is always the exact
concatenation, in arrival order, of all chunks fed to the callback,
and the string returned by `decodeStream` is the exact concatenation
of all tokens it fed to the callback. -/
theorem c5_fullText_concat :
    (∀ (u : Bool) (chunks : List (List Char)),
      (runFeeds (initState u) chunks).fullResponse = concatAll chunks) ∧
    (∀ (σ ε : Type) (parse : List Char → Option (List (List Char)))
      (cb : σ → List Char → σ × Option ε) (s : σ) (lines : List (List Char)),
      (decodeStream parse cb s [] [] lines).full =
        concatAll (decodeStream parse cb s [] [] lines).toks) := by
  constructor
  · intro u chunks
    rw [runFeeds_fullResponse chunks (initState u)]
    simp [initState]
  · intro σ ε parse cb s lines
    obtain ⟨new, h1, h2⟩ := decodeStream_toks_full parse cb lines s [] []
    rw [h1, h2]
    simp

/-- C6.  After any sequence of chunks, the `afterThinkingContent`
accumulator is a suffix of `fullResponse`, and it equals exactly the
`Visible`-mode content emitted after the first close-delimiter match. -/
theorem c6_postReasoning_suffix (u : Bool) (chunks : List (List Char)) :
    (runFeeds (initState u) chunks).afterThinking <:+
      (runFeeds (initState u) chunks).fullResponse ∧
    (runFeeds (initState u) chunks).afterThinking =
      visAfterClose false (runFeeds (initState u) chunks).out := by
  obtain ⟨h1, -, -, h4, -⟩ := inv_runFeeds (inv_initState u) chunks
  exact ⟨h1, h4⟩

/-- C7 (counterexample).  After a completed stream whose reasoning
region was opened but never closed, the code invokes **no** formatter
at all (neither on `postReasoningText` nor on `fullText`), refuting
the claim that the rich-text formatter is invoked exactly once with
`fullText` when no complete reasoning region was closed. -/
theorem c7_formatter_counterexample :
    (runFeeds (initState false) [str "<think>abc"]).thinkingClosed = false ∧
    finalRender true (runFeeds (initState false) [str "<think>abc"]) =
      RenderChoice.skip := by
  constructor
  · decide
  · decide

/-- C7 (amended).  After the stream ends, the markdown renderer runs
on the trimmed post-close content exactly when a close delimiter was
matched, the post-close content (the `Visible`-mode content after the
first close transition) is non-empty, markdown is enabled and the trim
is non-empty; otherwise the full text is re-rendered (with markdown
iff enabled) exactly when `thinkingStarted` is still false; in every
other case no second-pass formatting happens. -/
theorem c7_formatter_rule (u rm : Bool) (chunks : List (List Char)) :
    finalRender rm (runFeeds (initState u) chunks) =
      (if hasCloseSwitch (runFeeds (initState u) chunks).out &&
          !(visAfterClose false (runFeeds (initState u) chunks).out).isEmpty && rm then
        (if !(trimSpace (visAfterClose false (runFeeds (initState u) chunks).out)).isEmpty
          then RenderChoice.markdown
            (trimSpace (visAfterClose false (runFeeds (initState u) chunks).out))
          else RenderChoice.skip)
      else if !(runFeeds (initState u) chunks).thinkingStarted then
        (if rm then RenderChoice.markdown (runFeeds (initState u) chunks).fullResponse
          else RenderChoice.plain (runFeeds (initState u) chunks).fullResponse)
      else RenderChoice.skip) := by
  obtain ⟨-, -, -, h4, h5⟩ := inv_runFeeds (inv_initState u) chunks
  rw [finalRender, ← h4, h5]

/-- C8 (counterexample).  An input that contains an over-bound line
need not end in a decode error: if the `"[DONE]"` sentinel comes
first, decoding stops normally and the oversized line is never
reached, refuting the claim as universally stated. -/
theorem c8_oversized_counterexample :
    maxScanTokenSize ≤ longLine.length ∧
    decodeStream parseExample cbOk () [] [] [doneLine, longLine] =
      ⟨[], [], (), none⟩ := by
  constructor
  · simp [longLine]
  · rfl

/-- C8 (amended).  A line at or beyond the 64 KiB scanner bound that
decoding actually reaches terminates the stream at once with the fatal
`bufio.ErrTooLong` decode error: the line is not processed and nothing
after it is read. -/
theorem c8_oversized_line_fatal {σ ε : Type}
    (parse : List Char → Option (List (List Char))) (cb : σ → List Char → σ × Option ε)
    (s : σ) (full : List Char) (toks : List (List Char))
    (line : List Char) (rest : List (List Char))
    (hlen : maxScanTokenSize ≤ line.length) :
    decodeStream parse cb s full toks (line :: rest) =
      ⟨full, toks, s, some DecodeError.tooLong⟩ :=
  decodeStep_tooLong hlen

/-- C8 (witness).  A 64 KiB line at the head of the stream yields the
fatal error immediately. -/
theorem c8_oversized_line_fatal_witness :
    maxScanTokenSize ≤ longLine.length ∧
    decodeStream parseExample cbOk () [] [] [longLine, hiLine] =
      ⟨[], [], (), some DecodeError.tooLong⟩ :=
  ⟨by simp [longLine],
    c8_oversized_line_fatal parseExample cbOk () [] [] longLine [hiLine]
      (by simp [longLine])⟩

/-- C9.  The decoder never invokes the callback with an empty token:
every token in the invocation trace is non-empty, so the tag lexer
only ever receives non-empty chunks. -/
theorem c9_no_empty_callback {σ ε : Type}
    (parse : List Char → Option (List (List Char))) (cb : σ → List Char → σ × Option ε)
    (s : σ) (lines : List (List Char)) (tk : List Char)
    (h : tk ∈ (decodeStream parse cb s [] [] lines).toks) : tk ≠ [] := by
  rcases decodeStream_mem_toks parse cb lines s [] [] tk h with h' | h'
  · simp at h'
  · exact h'

/-- C9 (witness). -/
theorem c9_no_empty_callback_witness :
    str "Hi" ∈ (decodeStream parseExample cbOk () [] [] [hiLine]).toks ∧
    str "Hi" ≠ [] :=
  ⟨by decide, c9_no_empty_callback parseExample cbOk () [hiLine] (str "Hi") (by decide)⟩

/-- C10.  If the callback errors on a token, `decodeStream` stops at
once — the remaining lines are never read (the result does not depend
on them) — and returns the same error together with the accumulated
content, which includes the failing token. -/
theorem c10_callback_error_stops {σ ε : Type}
    (parse : List Char → Option (List (List Char))) (cb : σ → List Char → σ × Option ε)
    (s s' : σ) (full : List Char) (toks : List (List Char))
    (line : List Char) (rest : List (List Char))
    (tk : List Char) (cs : List (List Char)) (e : ε)
    (hlen : line.length < maxScanTokenSize)
    (hpre : dataMarker.isPrefixOf line = true)
    (hdone : line.drop dataMarker.length ≠ doneData)
    (hp : parse (line.drop dataMarker.length) = some (tk :: cs))
    (htk : tk ≠ []) (hcb : cb s tk = (s', some e)) :
    decodeStream parse cb s full toks (line :: rest) =
      ⟨full ++ tk, toks ++ [tk], s', some (DecodeError.cb e)⟩ :=
  decodeStep_cbError (not_le.mpr hlen) hpre hdone hp htk hcb

/-- C10 (witness).  The callback fails with error `7` on `"Hi"`; the
stream stops with that error, the second line unread, and the
accumulated content is the failing token. -/
theorem c10_callback_error_stops_witness :
    cbFail () (str "Hi") = ((), some 7) ∧
    decodeStream parseExample cbFail () [] [] [hiLine, byeLine] =
      ⟨str "Hi", [str "Hi"], (), some (DecodeError.cb 7)⟩ :=
  ⟨by decide,
    c10_callback_error_stops parseExample cbFail () () [] [] hiLine [byeLine]
      (str "Hi") [] 7 (by decide) (by decide) (by decide) (by decide) (by decide)
      (by decide)⟩

end Chatty
